import Mathlib

/-!
Formal model of the dust peer-to-peer message flooding program.

The development shallowly embeds the Rust sources (src/msg.rs, src/queue.rs
and the duplicated copies plus the event loop in src/main.rs) into Lean:

* bytes are natural numbers (entries of byte lists come from Rust u8 values,
  so they are below 256 wherever that matters);
* a Rust String is modelled by the list of its UTF-8 bytes;
* a Uuid is modelled by the list of its 16 bytes;
* fallible Rust functions return a RustResult value, and a computation that
  may panic is wrapped in Exec, whose aborted constructor records the panic
  message;
* the TcpStream of a peer is modelled by its remote address together with
  the log of byte blocks written to it, which lets theorems speak about
  what propagation wrote to which peer.
-/

set_option maxRecDepth 10000

/-- Models a Rust computation that either returns normally or panics
(constructor aborted, carrying the panic message). -/
inductive Exec (α : Type) where
  | aborted (msg : String)
  | ret (a : α)
  deriving DecidableEq, Repr

/-- Models the Rust Result type. -/
inductive RustResult (ε α : Type) where
  | err (e : ε)
  | ok (a : α)
  deriving DecidableEq, Repr

/-- Models uuid::Error. Uuid::from_slice fails exactly when the slice
does not have length 16. -/
inductive UuidError where
  | invalidLength
  deriving DecidableEq, Repr

/-- From src/msg.rs: the unit error of TryFrom<String> for Msg. -/
inductive TryFromStringToMsgError where
  | mk
  deriving DecidableEq, Repr

/-- From src/msg.rs: the error enum of TryFrom<[u8; CAPACITY]> for Msg.
The CorruptUuid variant carries the uuid error (the #[from] conversion). -/
inductive TryFromArrayToMsgError where
  | MissingSep
  | CorruptUuid (e : UuidError)
  deriving DecidableEq, Repr

/-- From src/msg.rs: a message, text plus a 16-byte uuid. The text field
holds the UTF-8 bytes of the Rust String. -/
structure Msg where
  text : List Nat
  uuid : List Nat
  deriving DecidableEq, Repr

def UUID_SIZE : Nat := 16

def SEP_SIZE : Nat := 1

def CAPACITY : Nat := 128

/-- Models Uuid::from_slice: succeeds returning the 16 bytes exactly when
the slice has length 16. -/
def uuidFromSlice (l : List Nat) : RustResult UuidError (List Nat) :=
  if l.length = UUID_SIZE then .ok l else .err .invalidLength

/-- Models Iterator::position over a byte list: index of the first element
satisfying the predicate. -/
def position (p : Nat → Bool) : List Nat → Option Nat
  | [] => none
  | x :: xs => if p x then some 0 else (position p xs).map (· + 1)

/-- Fuelled worker for utf8Lossy. Every step consumes at least one input
byte and one unit of fuel, so fuel equal to the input length never runs
out; the fuel only makes the recursion structural. -/
def utf8LossyF : Nat → List Nat → List Nat
  | 0, _ => []
  | _, [] => []
  | fuel + 1, b1 :: rest =>
    if b1 ≤ 0x7F then
      b1 :: utf8LossyF fuel rest
    else if 0xC2 ≤ b1 ∧ b1 ≤ 0xDF then
      match rest with
      | b2 :: rest2 =>
        if 0x80 ≤ b2 ∧ b2 ≤ 0xBF then b1 :: b2 :: utf8LossyF fuel rest2
        else 0xEF :: 0xBF :: 0xBD :: utf8LossyF fuel (b2 :: rest2)
      | [] => [0xEF, 0xBF, 0xBD]
    else if 0xE0 ≤ b1 ∧ b1 ≤ 0xEF then
      match rest with
      | b2 :: b3 :: rest3 =>
        if ((if b1 = 0xE0 then 0xA0 else 0x80) ≤ b2 ∧
              b2 ≤ (if b1 = 0xED then 0x9F else 0xBF)) ∧
            (0x80 ≤ b3 ∧ b3 ≤ 0xBF) then
          b1 :: b2 :: b3 :: utf8LossyF fuel rest3
        else 0xEF :: 0xBF :: 0xBD :: utf8LossyF fuel (b2 :: b3 :: rest3)
      | [b2] => 0xEF :: 0xBF :: 0xBD :: utf8LossyF fuel [b2]
      | [] => [0xEF, 0xBF, 0xBD]
    else if 0xF0 ≤ b1 ∧ b1 ≤ 0xF4 then
      match rest with
      | b2 :: b3 :: b4 :: rest4 =>
        if ((if b1 = 0xF0 then 0x90 else 0x80) ≤ b2 ∧
              b2 ≤ (if b1 = 0xF4 then 0x8F else 0xBF)) ∧
            (0x80 ≤ b3 ∧ b3 ≤ 0xBF) ∧ (0x80 ≤ b4 ∧ b4 ≤ 0xBF) then
          b1 :: b2 :: b3 :: b4 :: utf8LossyF fuel rest4
        else 0xEF :: 0xBF :: 0xBD :: utf8LossyF fuel (b2 :: b3 :: b4 :: rest4)
      | [b2, b3] => 0xEF :: 0xBF :: 0xBD :: utf8LossyF fuel [b2, b3]
      | [b2] => 0xEF :: 0xBF :: 0xBD :: utf8LossyF fuel [b2]
      | [] => [0xEF, 0xBF, 0xBD]
    else
      0xEF :: 0xBF :: 0xBD :: utf8LossyF fuel rest

/-- Models String::from_utf8_lossy on the byte list of the input: valid
UTF-8 sequences are copied through unchanged (so on the bytes of a genuine
Rust String the function is the identity, the only case this development
relies on); an invalid sequence is replaced by the three UTF-8 bytes of
U+FFFD. On invalid input the model consumes one byte per replacement while
the Rust implementation consumes the maximal invalid prefix; no theorem
depends on that difference. -/
def utf8Lossy (l : List Nat) : List Nat :=
  utf8LossyF l.length l

/-- Helper for Msg.into_bytes: models the loop
for_each(|(i, b)| bytes[i + off] = b), writing the data bytes into the
buffer starting at the given offset. List.set, like the Rust index
assignment, is only reached in bounds at every call site of into_bytes. -/
def writeBytes : List Nat → Nat → List Nat → List Nat
  | bs, _, [] => bs
  | bs, off, b :: rest => writeBytes (bs.set off b) (off + 1) rest

/-- From src/msg.rs, Msg::into_bytes: a CAPACITY-byte zero buffer with the
text written at offset 0 and the uuid written at offset text.length +
SEP_SIZE, the separator and the tail staying zero. -/
def Msg.into_bytes (m : Msg) : List Nat :=
  writeBytes (writeBytes (List.replicate CAPACITY 0) 0 m.text)
    (m.text.length + SEP_SIZE) m.uuid

/-- From src/msg.rs, TryFrom<[u8; CAPACITY]> for Msg (decoding): find the
first zero byte; with no zero byte fail with MissingSep; otherwise take the
bytes before it as text (through from_utf8_lossy) and the 16 bytes after it
as the uuid. The Rust slice expression value[(sep + SEP_SIZE)..(sep +
SEP_SIZE + UUID_SIZE)] panics when its end exceeds the array length, and
Uuid::from_slice(uuid_bytes).unwrap() panics when from_slice fails; both
panics are modelled by Exec.aborted. -/
def Msg.try_from_array (value : List Nat) : Exec (RustResult TryFromArrayToMsgError Msg) :=
  match position (fun c => c == 0) value with
  | none => .ret (.err .MissingSep)
  | some sep =>
    if sep + SEP_SIZE + UUID_SIZE ≤ value.length then
      match uuidFromSlice ((value.drop (sep + SEP_SIZE)).take UUID_SIZE) with
      | .err _ => .aborted "called unwrap on an Err value"
      | .ok uuid => .ret (.ok { text := utf8Lossy (value.take sep), uuid := uuid })
    else
      .aborted "range end index out of bounds"

/-- From src/msg.rs, TryFrom<String> for Msg (construction): the source
calls Uuid::new_v4 twice, once for the asserted uuid (u1 here) and once for
the uuid actually stored in the message (u2 here); both are fresh random
values, so the model takes them as parameters. The source asserts
that the bitwise complement of the first byte of u1 (255 - u1 byte 0 for a
u8) is nonzero and panics with the message shown otherwise; then it returns
Ok exactly when value.len() + SEP_SIZE + UUID_SIZE ≤ CAPACITY and the unit
error otherwise. -/
def Msg.try_from_string (value u1 u2 : List Nat) : Exec (RustResult TryFromStringToMsgError Msg) :=
  if 255 - u1.headD 0 ≠ 0 then
    if value.length + SEP_SIZE + UUID_SIZE ≤ CAPACITY then
      .ret (.ok { text := value, uuid := u2 })
    else
      .ret (.err .mk)
  else
    .aborted "Uuid started with 0!"

/-- From src/queue.rs: a fixed-capacity queue over a VecDeque, front at the
head of the items list. src/main.rs duplicates it with fields named size
and elements. -/
structure Queue (α : Type) where
  capacity : Nat
  items : List α
  deriving DecidableEq, Repr

/-- From src/queue.rs, Queue::new: an empty queue with the given capacity. -/
def Queue.new {α : Type} (capacity : Nat) : Queue α :=
  { capacity := capacity, items := [] }

/-- From src/queue.rs, Queue::push: push_back the item unconditionally;
when the length then exceeds the capacity, pop_front and return the popped
front element, otherwise return none. The mutation of self is modelled by
returning the updated queue next to the returned option. -/
def Queue.push {α : Type} (q : Queue α) (item : α) : Option α × Queue α :=
  let items := q.items ++ [item]
  if items.length > q.capacity then
    (items.head?, { q with items := items.tail })
  else
    (none, { q with items := items })

/-- From src/queue.rs, Queue::contains: VecDeque membership by equality. -/
def Queue.contains {α : Type} [DecidableEq α] (q : Queue α) (item : α) : Bool :=
  q.items.contains item

/-- Pushes a whole list of items in order; used to state the FIFO eviction
claim about a sequence of pushes. -/
def pushAll {α : Type} (q : Queue α) (l : List α) : Queue α :=
  l.foldl (fun acc x => (Queue.push acc x).2) q

/-- Models a peer TcpStream of src/main.rs: its remote address (peer_addr)
and the log of byte blocks written to it so far. -/
structure Peer where
  addr : Nat
  written : List (List Nat)
  deriving DecidableEq, Repr

/-- Models TcpStream::write of one full block: the block is appended to
the written log of the peer. -/
def writeStream (s : Peer) (bytes : List Nat) : Peer :=
  { s with written := s.written ++ [bytes] }

/-- From src/main.rs, broadcast: write the encoded message to every stream
in order and return the streams. -/
def broadcast (streams : List Peer) (msg : Msg) : List Peer :=
  streams.map (fun s => writeStream s msg.into_bytes)

/-- From src/main.rs, propagate: partition the streams into those whose
peer address equals the origin and the rest, broadcast to the rest (after
the redundant second filter of the source), then append the origin streams
behind the written ones. -/
def propagate (streams : List Peer) (msg : Msg) (origin : Nat) : List Peer :=
  let parts := streams.partition (fun s => s.addr == origin)
  let rest := broadcast ((parts.2).filter (fun s => !(s.addr == origin))) msg
  rest ++ parts.1

/-- The outcome of the non-blocking read stream.read(&mut msg) in
process_msg of src/main.rs: end of stream (Ok(0)), WouldBlock, another IO
error, or a filled CAPACITY-byte buffer. -/
inductive ReadResult where
  | eof
  | wouldBlock
  | ioErr
  | bytes (block : List Nat)
  deriving DecidableEq, Repr

/-- From src/main.rs, process_msg for one peer, parametrised by the read
outcome: end of stream drops the peer (returns none for it); WouldBlock
retains it with no message; any other IO error panics; received bytes are
decoded with try_into().unwrap() (decode failure panics), then a message
already in seen retains the peer with no propagation, and a new message is
pushed into seen and produced together with the peer address. The mutation
of seen is modelled by returning the updated queue. -/
def process_msg (stream : Peer) (r : ReadResult) (seen : Queue Msg) :
    Exec (Queue Msg × Option (Peer × Option (Msg × Nat))) :=
  match r with
  | .eof => .ret (seen, none)
  | .wouldBlock => .ret (seen, some (stream, none))
  | .ioErr => .aborted "IO error"
  | .bytes block =>
    match Msg.try_from_array block with
    | .aborted s => .aborted s
    | .ret (.err _) => .aborted "called unwrap on an Err value"
    | .ret (.ok m) =>
      if seen.contains m then
        .ret (seen, some (stream, none))
      else
        .ret ((seen.push m).2, some (stream, some (m, stream.addr)))

/-- From src/main.rs, the Command::Broadcast branch of run: construct the
message with s.try_into().unwrap() (modelled by try_from_string with the
two fresh uuids u1 and u2; a construction error panics through unwrap),
push it into seen and broadcast it to all streams. -/
def run_broadcast (streams : List Peer) (seen : Queue Msg) (text u1 u2 : List Nat) :
    Exec (List Peer × Queue Msg) :=
  match Msg.try_from_string text u1 u2 with
  | .aborted s => .aborted s
  | .ret (.err _) => .aborted "called unwrap on an Err value"
  | .ret (.ok msg) => .ret (broadcast streams msg, (seen.push msg).2)

/-- Concrete test message with text "hi". -/
def tm1 : Msg :=
  { text := [104, 105], uuid := List.replicate 16 1 }

/-- Concrete test message, same text as tm1 but a different uuid. -/
def tm2 : Msg :=
  { text := [104, 105], uuid := List.replicate 16 2 }

/-- Concrete test message with text "w". -/
def tm3 : Msg :=
  { text := [119], uuid := List.replicate 16 3 }

/-- A 128-byte block whose first zero byte sits at offset 112, leaving only
15 bytes after the separator. -/
def badBlock : List Nat :=
  List.replicate 112 1 ++ 0 :: List.replicate 15 1


/-- Setting an in-bounds index of a list splits it into the prefix, the new
element and the suffix. -/
theorem set_splice (bs : List Nat) (i : Nat) (b : Nat) (h : i < bs.length) :
    bs.set i b = bs.take i ++ b :: bs.drop (i + 1) := by
  induction bs generalizing i with
  | nil => simp at h
  | cons x xs ih =>
    cases i with
    | zero => simp
    | succ j =>
      simp only [List.set_cons_succ, List.take_succ_cons, List.drop_succ_cons, List.cons_append,
        List.cons.injEq, true_and]
      exact ih j (by simpa using Nat.lt_of_succ_lt_succ h)

/-- writeBytes replaces the in-bounds slice starting at the offset with the
data and keeps the rest of the buffer. -/
theorem writeBytes_splice :
    ∀ (data bs : List Nat) (off : Nat), off + data.length ≤ bs.length →
    writeBytes bs off data = bs.take off ++ data ++ bs.drop (off + data.length)
  | [], bs, off, h => by
    simp only [writeBytes, List.append_nil, Nat.add_zero]
    exact (List.take_append_drop off bs).symm
  | b :: rest, bs, off, h => by
    have hlen : off < bs.length := by simp at h; omega
    have hrec : (off + 1) + rest.length ≤ (bs.set off b).length := by
      simp at h ⊢; omega
    rw [writeBytes, writeBytes_splice rest (bs.set off b) (off + 1) hrec,
      set_splice bs off b hlen]
    have hA : (bs.take off).length = off := List.length_take_of_le (Nat.le_of_lt hlen)
    rw [List.take_append_eq_append_take, List.drop_append_eq_append_drop]
    simp only [hA]
    have e1 : off + 1 - off = 1 := by omega
    have e2 : off + 1 + rest.length - off = rest.length + 1 := by omega
    have e3 : (bs.take off).length ≤ off + 1 := by omega
    have e4 : (bs.take off).length ≤ off + 1 + rest.length := by omega
    rw [e1, e2, List.take_of_length_le e3, List.drop_eq_nil_of_le e4]
    simp only [List.take_succ_cons, List.take_zero, List.drop_succ_cons, List.drop_drop,
      List.nil_append, List.length_cons]
    have e5 : off + 1 + rest.length = off + (rest.length + 1) := by omega
    rw [e5]
    simp

/-- Explicit frame layout produced by Msg.into_bytes for a message within
capacity: the text, the zero separator, the 16-byte uuid and zero padding
filling the block up to 128 bytes. -/
theorem into_bytes_eq (text uuid : List Nat) (h1 : text.length ≤ 111)
    (h2 : uuid.length = 16) :
    Msg.into_bytes { text := text, uuid := uuid } =
      text ++ 0 :: (uuid ++ List.replicate (111 - text.length) 0) := by
  unfold Msg.into_bytes
  simp only [SEP_SIZE, CAPACITY]
  rw [writeBytes_splice text (List.replicate 128 0) 0 (by simp; omega)]
  simp only [List.take_zero, List.nil_append, List.drop_replicate, Nat.zero_add]
  rw [writeBytes_splice uuid (text ++ List.replicate (128 - text.length) 0)
    (text.length + 1) (by simp; omega)]
  rw [List.take_append_eq_append_take, List.drop_append_eq_append_drop]
  rw [List.take_of_length_le (by omega : text.length ≤ text.length + 1)]
  rw [List.take_replicate, List.drop_replicate]
  have h3 : text.length + 1 - text.length = 1 := by omega
  have h4 : text.length + 1 + uuid.length - text.length = 1 + uuid.length := by omega
  rw [h3, h4, List.drop_eq_nil_of_le (by omega : text.length ≤ text.length + 1 + uuid.length)]
  have h5 : min 1 (128 - text.length) = 1 := by omega
  rw [h5]
  have h6 : 128 - text.length - (1 + uuid.length) = 111 - text.length := by omega
  rw [h6]
  simp

/-- The first zero byte of a block consisting of a zero-free prefix, a zero
byte and a tail sits exactly at the end of that prefix. -/
theorem position_zero_append (l r : List Nat) (h : 0 ∉ l) :
    position (fun c => c == 0) (l ++ 0 :: r) = some l.length := by
  induction l with
  | nil => simp [position]
  | cons x xs ih =>
    have hx0 : x ≠ 0 := by
      intro e
      exact h (by simp [e])
    have hx : (x == 0) = false := by simp [hx0]
    rw [List.cons_append, position, hx]
    simp only [Bool.false_eq_true, if_false]
    rw [ih (fun hm => h (List.mem_cons_of_mem x hm))]
    simp

/-- Queue.push does not change the capacity field. -/
theorem Queue.push_capacity {α : Type} (q : Queue α) (x : α) :
    ((q.push x).2).capacity = q.capacity := by
  simp only [Queue.push]
  split <;> rfl

/-- One push on a queue within capacity appends the item and drops the
front exactly when the queue was full, expressed as a single drop. -/
theorem Queue.push_items_of_le {α : Type} (q : Queue α) (x : α)
    (h : q.items.length ≤ q.capacity) :
    ((q.push x).2).items = (q.items ++ [x]).drop ((q.items.length + 1) - q.capacity) := by
  simp only [Queue.push]
  split
  · next hgt =>
    have hc : q.items.length = q.capacity := by
      simp at hgt
      omega
    have e1 : q.items.length + 1 - q.capacity = 1 := by omega
    simp [e1, List.drop_one]
  · next hle =>
    have hc : q.items.length + 1 ≤ q.capacity := by
      simp at hle
      omega
    have e1 : q.items.length + 1 - q.capacity = 0 := by omega
    simp [e1]

/-- pushAll does not change the capacity field. -/
theorem pushAll_capacity {α : Type} (l : List α) (q : Queue α) :
    (pushAll q l).capacity = q.capacity := by
  induction l generalizing q with
  | nil => rfl
  | cons x xs ih =>
    show (pushAll (q.push x).2 xs).capacity = q.capacity
    rw [ih, Queue.push_capacity]

/-- Pushing a list of items onto a queue within capacity keeps the last
capacity-many of the concatenated contents: the items behave as a sliding
window over the push sequence. -/
theorem pushAll_items {α : Type} (l : List α) (q : Queue α)
    (h : q.items.length ≤ q.capacity) :
    (pushAll q l).items = (q.items ++ l).drop ((q.items.length + l.length) - q.capacity) := by
  induction l generalizing q with
  | nil =>
    simp [pushAll, Nat.sub_eq_zero_of_le h]
  | cons x xs ih =>
    show (pushAll (q.push x).2 xs).items = _
    have hcap := Queue.push_capacity q x
    have hitems := Queue.push_items_of_le q x h
    have hlen2 : ((q.push x).2).items.length ≤ ((q.push x).2).capacity := by
      rw [hcap, hitems]
      simp <;> omega
    rw [ih (q.push x).2 hlen2, hcap, hitems]
    have hd : (q.items.length + 1) - q.capacity ≤ (q.items ++ [x]).length := by
      simp only [List.length_append, List.length_cons, List.length_nil]
      omega
    rw [← List.drop_append_of_le_length hd, List.drop_drop]
    have e1 : q.items.length + 1 - q.capacity +
        ((List.drop (q.items.length + 1 - q.capacity) (q.items ++ [x])).length + xs.length
          - q.capacity) = q.items.length + (x :: xs).length - q.capacity := by
      simp <;> omega
    rw [e1]
    have e2 : q.items ++ [x] ++ xs = q.items ++ x :: xs := by simp
    rw [e2]

/-- Queue.contains decides membership of the item in the queue contents. -/
theorem Queue.contains_eq {α : Type} [DecidableEq α] (q : Queue α) (x : α) :
    q.contains x = decide (x ∈ q.items) := by
  simp [Queue.contains, List.contains, List.elem_eq_mem]

/-- C1 (counterexample): the round-trip claim fails as stated. The text
consisting of the single byte 0 has byte length 1, so the message is
constructible, yet decoding the encoded block does not give the message
back: the zero text byte is taken for the separator, so the decoded text is
empty and the decoded uuid is shifted. -/
theorem msg_roundtrip_nul_counterexample :
    ¬ (Msg.try_from_array (Msg.into_bytes { text := [0], uuid := List.replicate 16 1 }) =
      .ret (.ok { text := [0], uuid := List.replicate 16 1 })) := by
  decide

/-- C1 (amended): for every message whose text has byte length at most 111
and contains no zero byte (and whose text bytes are fixed by
from_utf8_lossy, as the bytes of every Rust String are), decoding the
128-byte block produced by encoding it yields a message equal to the
original, with the same text and the same 16-byte id. -/
theorem msg_roundtrip_no_nul (text uuid : List Nat) (h1 : text.length ≤ 111)
    (h2 : uuid.length = 16) (h3 : 0 ∉ text) (h4 : utf8Lossy text = text) :
    Msg.try_from_array (Msg.into_bytes { text := text, uuid := uuid }) =
      .ret (.ok { text := text, uuid := uuid }) := by
  rw [into_bytes_eq text uuid h1 h2]
  unfold Msg.try_from_array
  rw [position_zero_append text (uuid ++ List.replicate (111 - text.length) 0) h3]
  simp only [SEP_SIZE, UUID_SIZE]
  have hlen : (text ++ 0 :: (uuid ++ List.replicate (111 - text.length) 0)).length = 128 := by
    simp [h2]; omega
  rw [hlen]
  rw [if_pos (by omega : text.length + 1 + 16 ≤ 128)]
  have hdrop : (text ++ 0 :: (uuid ++ List.replicate (111 - text.length) 0)).drop
      (text.length + 1) = uuid ++ List.replicate (111 - text.length) 0 := by
    rw [List.drop_append_eq_append_drop,
      List.drop_eq_nil_of_le (by omega : text.length ≤ text.length + 1)]
    have e1 : text.length + 1 - text.length = 1 := by omega
    rw [e1]
    simp
  rw [hdrop]
  have htake16 : (uuid ++ List.replicate (111 - text.length) 0).take 16 = uuid := by
    rw [List.take_append_eq_append_take, List.take_of_length_le (by omega : uuid.length ≤ 16)]
    rw [h2]
    simp
  rw [htake16]
  have huuid : uuidFromSlice uuid = .ok uuid := by
    unfold uuidFromSlice
    rw [if_pos (by simp [UUID_SIZE, h2])]
  rw [huuid]
  have htext : (text ++ 0 :: (uuid ++ List.replicate (111 - text.length) 0)).take
      text.length = text := by
    rw [List.take_append_eq_append_take, List.take_of_length_le (by omega : text.length ≤ text.length)]
    simp
  rw [htext, h4]

/-- C1 (witness): the amended round-trip theorem applied to the concrete
message tm1 with text "hi" and a concrete uuid. -/
theorem msg_roundtrip_no_nul_witness :
    ([104, 105] : List Nat).length ≤ 111 ∧ (List.replicate 16 1 : List Nat).length = 16 ∧
      0 ∉ ([104, 105] : List Nat) ∧ utf8Lossy [104, 105] = [104, 105] ∧
      Msg.try_from_array (Msg.into_bytes tm1) = .ret (.ok tm1) :=
  ⟨by decide, by decide, by decide, by decide,
    msg_roundtrip_no_nul [104, 105] (List.replicate 16 1) (by decide) (by decide) (by decide)
      (by decide)⟩

/-- C2: for every peer set, message and origin address, propagate writes
the encoded frame exactly once to every peer whose remote address differs
from the origin (their written logs are extended by exactly that one
block), never writes to any peer whose remote address equals the origin,
and returns the written peers followed by the held-back origin peers
unchanged. -/
theorem propagate_spec (streams : List Peer) (msg : Msg) (origin : Nat) :
    propagate streams msg origin =
      (streams.filter (fun s => !(s.addr == origin))).map
          (fun s => writeStream s msg.into_bytes) ++
        streams.filter (fun s => s.addr == origin) := by
  simp [propagate, broadcast, List.partition_eq_filter_filter, List.filter_filter]

/-- C3 (code divergence): decoding is not total. On the 128-byte block
whose first zero byte sits at offset 112 the decoder panics on the
out-of-bounds uuid slice instead of returning one of the two named errors. -/
theorem try_from_array_oob :
    Msg.try_from_array badBlock = .aborted "range end index out of bounds" := by
  decide

/-- C4: for a dedup cache of capacity N starting empty, after pushing N + 1
pairwise distinct messages, contains returns false for the first message
pushed and true for each of the N most recently pushed messages: strict
FIFO eviction of the oldest entry. -/
theorem queue_fifo_eviction (N : Nat) (x : Msg) (xs : List Msg) (hlen : xs.length = N)
    (hnodup : (x :: xs).Nodup) :
    (pushAll (Queue.new N : Queue Msg) (x :: xs)).contains x = false ∧
      (xs.all fun m => (pushAll (Queue.new N : Queue Msg) (x :: xs)).contains m) = true := by
  have hitems : (pushAll (Queue.new N : Queue Msg) (x :: xs)).items = xs := by
    rw [pushAll_items (x :: xs) (Queue.new N) (by simp [Queue.new])]
    simp [Queue.new, hlen]
  have hx : x ∉ xs := (List.nodup_cons.mp hnodup).1
  constructor
  · rw [Queue.contains_eq, hitems]
    simp [hx]
  · rw [List.all_eq_true]
    intro m hm
    rw [Queue.contains_eq, hitems]
    simp [hm]

/-- C4 (witness): the FIFO eviction theorem at capacity 2 with the three
distinct concrete messages tm1, tm2, tm3. -/
theorem queue_fifo_eviction_witness :
    ([tm2, tm3] : List Msg).length = 2 ∧ (tm1 :: [tm2, tm3]).Nodup ∧
      ((pushAll (Queue.new 2 : Queue Msg) (tm1 :: [tm2, tm3])).contains tm1 = false ∧
        (([tm2, tm3] : List Msg).all fun m =>
          (pushAll (Queue.new 2 : Queue Msg) (tm1 :: [tm2, tm3])).contains m) = true) :=
  ⟨by decide, by decide, queue_fifo_eviction 2 tm1 [tm2, tm3] (by decide) (by decide)⟩

/-- C5 (counterexample): pushing the same message twice in a row into an
empty cache of capacity 2 (a cache under capacity) leaves the cache at
size 2, not size 1, because Queue.push inserts unconditionally. -/
theorem queue_double_push_counterexample :
    ¬ (((((Queue.new 2 : Queue Msg).push tm1).2).push tm1).2.items.length = 1) := by
  decide

/-- C5 (amended): for every dedup cache with at least two free slots,
pushing the same message twice in a row returns no evicted entry from
either push and leaves the cache size larger by exactly 2: push inserts
unconditionally and deduplication is the task of the caller, which checks
contains before pushing. -/
theorem queue_double_push (q : Queue Msg) (m : Msg) (h : q.items.length + 2 ≤ q.capacity) :
    (q.push m).1 = none ∧ (((q.push m).2).push m).1 = none ∧
      ((((q.push m).2).push m).2).items.length = q.items.length + 2 := by
  have h1 : ¬ ((q.items ++ [m]).length > q.capacity) := by
    simp
    omega
  have hfst : q.push m = (none, { q with items := q.items ++ [m] }) := by
    simp [Queue.push, h1]
    omega
  rw [hfst]
  have h2 : ¬ (((q.items ++ [m]) ++ [m]).length > q.capacity) := by
    simp
    omega
  have hsnd : ({ q with items := q.items ++ [m] } : Queue Msg).push m =
      (none, { q with items := (q.items ++ [m]) ++ [m] }) := by
    simp [Queue.push, h2]
    omega
  rw [hsnd]
  simp

/-- C5 (witness): the amended double-push theorem on the empty cache of
capacity 2 with the concrete message tm1. -/
theorem queue_double_push_witness :
    (Queue.new 2 : Queue Msg).items.length + 2 ≤ (Queue.new 2 : Queue Msg).capacity ∧
      (((Queue.new 2 : Queue Msg).push tm1).1 = none ∧
        ((((Queue.new 2 : Queue Msg).push tm1).2).push tm1).1 = none ∧
        (((((Queue.new 2 : Queue Msg).push tm1).2).push tm1).2).items.length =
          (Queue.new 2 : Queue Msg).items.length + 2) :=
  ⟨by decide, queue_double_push (Queue.new 2) tm1 (by decide)⟩

/-- C6: for every dedup cache whose size is at most its capacity, push
preserves the size bound, returns some evicted front entry exactly when the
cache was already at capacity (none otherwise, the evicted entry being the
front of the insertion order after the append), and contains is a pure
membership test on the unchanged contents. -/
theorem queue_push_spec (q : Queue Msg) (m x : Msg) (h : q.items.length ≤ q.capacity) :
    ((q.push m).2).items.length ≤ q.capacity ∧
      (q.push m).1 = (if q.items.length = q.capacity then (q.items ++ [m]).head? else none) ∧
      q.contains x = decide (x ∈ q.items) := by
  refine ⟨?_, ?_, Queue.contains_eq q x⟩
  · rw [Queue.push_items_of_le q m h]
    simp
    omega
  · simp only [Queue.push]
    split
    · next hgt =>
      have hc : q.items.length = q.capacity := by
        simp at hgt
        omega
      rw [if_pos hc]
    · next hle =>
      have hc : ¬ (q.items.length = q.capacity) := by
        simp at hle
        omega
      rw [if_neg hc]

/-- C6 (witness): the push invariant theorem on the full concrete cache
holding tm1 and tm2 at capacity 2, pushing tm3 and testing membership of
tm1. -/
theorem queue_push_spec_witness :
    ({ capacity := 2, items := [tm1, tm2] } : Queue Msg).items.length ≤
        ({ capacity := 2, items := [tm1, tm2] } : Queue Msg).capacity ∧
      ((({ capacity := 2, items := [tm1, tm2] } : Queue Msg).push tm3).2.items.length ≤
          ({ capacity := 2, items := [tm1, tm2] } : Queue Msg).capacity ∧
        (({ capacity := 2, items := [tm1, tm2] } : Queue Msg).push tm3).1 =
          (if ({ capacity := 2, items := [tm1, tm2] } : Queue Msg).items.length =
              ({ capacity := 2, items := [tm1, tm2] } : Queue Msg).capacity then
            (({ capacity := 2, items := [tm1, tm2] } : Queue Msg).items ++ [tm3]).head?
          else none) ∧
        ({ capacity := 2, items := [tm1, tm2] } : Queue Msg).contains tm1 =
          decide (tm1 ∈ ({ capacity := 2, items := [tm1, tm2] } : Queue Msg).items)) :=
  ⟨by decide, queue_push_spec { capacity := 2, items := [tm1, tm2] } tm3 tm1 (by decide)⟩

/-- C7 (code divergence): construction from a within-capacity text does not
always reach the length check. With the text "hi" (2 bytes, well within
capacity) and a freshly generated uuid whose first byte is 0xFF, the
assertion in the constructor fails and the code panics instead of returning
a message. -/
theorem try_from_string_ff_aborts :
    Msg.try_from_string [104, 105] [255, 16, 17, 18, 19, 20, 68, 22, 136, 24, 25, 26, 27, 28, 29, 30]
      (List.replicate 16 3) = .aborted "Uuid started with 0!" := by
  decide

/-- C8 (code divergence): when the event loop handles a Broadcast command
whose text is 112 bytes long (one over the limit), the construction error
is unwrapped, so the loop panics and aborts instead of rejecting the single
request and continuing. -/
theorem run_broadcast_too_large_aborts :
    run_broadcast [{ addr := 0, written := [] }] (Queue.new 16) (List.replicate 112 104)
      (List.replicate 16 1) (List.replicate 16 2) = .aborted "called unwrap on an Err value" := by
  decide

/-- C9: for every peer polled in the read step, end of stream drops the
peer and produces no message, a would-block read retains the peer unchanged
and produces no message, a decoded message already in the dedup cache
retains the peer and produces no propagation, and a decoded new message is
pushed into the dedup cache and produced together with the peer address for
propagation. -/
theorem process_msg_spec (s : Peer) (seen : Queue Msg) (block : List Nat) (m : Msg) :
    process_msg s .eof seen = .ret (seen, none) ∧
      process_msg s .wouldBlock seen = .ret (seen, some (s, none)) ∧
      (Msg.try_from_array block = .ret (.ok m) → seen.contains m = true →
        process_msg s (.bytes block) seen = .ret (seen, some (s, none))) ∧
      (Msg.try_from_array block = .ret (.ok m) → seen.contains m = false →
        process_msg s (.bytes block) seen =
          .ret ((seen.push m).2, some (s, some (m, s.addr)))) := by
  refine ⟨rfl, rfl, fun hd hc => ?_, fun hd hc => ?_⟩ <;> simp [process_msg, hd, hc]

/-- C9 (witness): the new-message branch of the read step theorem on a
concrete peer at address 7, the empty capacity-16 cache and the encoded
block of tm1. -/
theorem process_msg_spec_witness :
    Msg.try_from_array (Msg.into_bytes tm1) = .ret (.ok tm1) ∧
      (Queue.new 16 : Queue Msg).contains tm1 = false ∧
      process_msg { addr := 7, written := [] } (.bytes (Msg.into_bytes tm1)) (Queue.new 16) =
        .ret (((Queue.new 16 : Queue Msg).push tm1).2,
          some ({ addr := 7, written := [] }, some (tm1, 7))) :=
  ⟨by decide, by decide,
    (process_msg_spec { addr := 7, written := [] } (Queue.new 16) (Msg.into_bytes tm1)
      tm1).2.2.2 (by decide) (by decide)⟩

/-- C10 (code divergence): the assertion in the constructor does not hold
for every freshly generated uuid. For a uuid whose first byte is 0xFF the
bitwise complement of the first byte is zero, so construction panics even
for a 1-byte text, refuting the claim that the result is determined solely
by the length check. -/
theorem try_from_string_assert_fails :
    Msg.try_from_string [104] [255, 33, 34, 35, 36, 37, 79, 39, 191, 41, 42, 43, 44, 45, 46, 47]
      (List.replicate 16 4) = .aborted "Uuid started with 0!" := by
  decide
